import Mathlib

/-!
# Verification of the cfn metadata convergence agent (heat/cfntools/cfn_helper.py)

A shallow embedding of `heat/cfntools/cfn_helper.py` (Python 2).

Modelling conventions:
* Python strings are Lean `String`s; all string operations are implemented
  over `String.data` (lists of characters) so that every definition reduces
  in the kernel.
* External effects go through `CommandRunner`, modelled by a `World` oracle
  mapping a (user, command string) pair to the exit status and stdout the
  command would produce.  A handler returns the trace of effects it performs
  (commands executed, files written), in order.
* The metadata document (already-parsed JSON) is the inductive `JVal`.
* Python exceptions that the embedded code can raise are the explicit
  `PyErr` results; `none` on `Option` marks an `IndexError` from
  `Hook.resource_name_get` on a path without a dot.
* The rpm version comparison routine (`rpmUtils.miscutils.compareVerOnly`)
  is third-party library code that is not part of this repository; it is
  modelled from the spec (see `compareVerOnly` below).
-/

/-! ## Python string primitives (over `String.data`, kernel-reducible) -/

/-- Python `needle in haystack` on strings: substring containment. -/
def pyInStr (needle hay : String) : Bool :=
  decide (needle.data <:+: hay.data)

/-- Helper for `pySplit`: split a character list at every occurrence of `c`,
`acc` holds the (reversed) current chunk. -/
def splitOnCharAux (c : Char) : List Char → List Char → List (List Char)
  | [], acc => [acc.reverse]
  | x :: xs, acc =>
    if x = c then acc.reverse :: splitOnCharAux c xs []
    else splitOnCharAux c xs (x :: acc)

/-- Python `s.split(c)` for a one-character separator (as used by
`Hook.resource_name_get`, i.e. `self.path.split('.')`). -/
def pySplit (c : Char) (s : String) : List String :=
  (splitOnCharAux c s.data []).map (fun l => ⟨l⟩)

/-- Python `s.lower()` (ASCII case folding suffices for the values used). -/
def pyLower (s : String) : String := ⟨s.data.map Char.toLower⟩

/-- Python `s.strip()`. -/
def pyStrip (s : String) : String :=
  ⟨((s.data.dropWhile Char.isWhitespace).reverse.dropWhile Char.isWhitespace).reverse⟩

/-- Python `" ".join(packages)`. -/
def pyJoin (sep : String) : List String → String
  | [] => ""
  | [x] => x
  | x :: xs => x ++ sep ++ pyJoin sep xs

/-! ## The parsed-JSON value type for metadata documents -/

/-- A parsed JSON value, the shape of `Metadata._metadata` after
`json.loads` and of every subobject the handlers consume. -/
inductive JVal where
  | jnull
  | jbool (b : Bool)
  | jnum (n : Int)
  | jstr (s : String)
  | jlist (l : List JVal)
  | jdict (entries : List (String × JVal))

/-- Python truthiness of a parsed JSON value (`if x:`). -/
def truthy : JVal → Bool
  | .jnull => false
  | .jbool b => b
  | .jnum n => !(n == 0)
  | .jstr s => !(s == "")
  | .jlist l => !l.isEmpty
  | .jdict es => !es.isEmpty

/-- Python `d[k]` / `k in d` / `d.get(k)` for a dict-shaped value: first
binding of `k`.  Returns `none` when `k` is absent or the value is not a
dict (the claims only exercise dict-shaped documents, the shape §6 of the
spec gives for the metadata). -/
def dictGet : JVal → String → Option JVal
  | .jdict es, k => (es.find? (fun e => e.1 == k)).map (·.2)
  | _, _ => none

/-- `to_boolean` (cfn_helper.py line 46): lower-and-strip a string then
test membership in `[True, 'true', 'yes', '1', 1]`; non-string values
match only `True` and `1`. -/
def to_boolean : JVal → Bool
  | .jstr b => let v := pyStrip (pyLower b)
               v == "true" || v == "yes" || v == "1"
  | .jbool b => b
  | .jnum n => n == 1
  | _ => false

/-! ## The rpm version comparator

`RpmHelper.compare_rpm_versions` delegates to
`rpmUtils.miscutils.compareVerOnly`, third-party library code that is not
in this repository.  `compareVerOnly` is therefore modelled from the spec
(§4.1): split each version string into maximal numeric / alphabetic runs
(any other character is a separator), compare runs pairwise — numeric runs
numerically, alphabetic runs lexically, a numeric run beats an alphabetic
one — and on a tie the string with runs remaining is the newer one. -/

/-- A token of a version string: a numeric run or an alphabetic run. -/
inductive VTok where
  | num (n : Nat)
  | alpha (s : List Char)
deriving DecidableEq

/-- Decimal value of a digit run (most significant digit first). -/
def digitsVal (l : List Char) : Nat :=
  l.foldl (fun n c => n * 10 + (c.toNat - 48)) 0

/-- Close the pending run (`some (isNum, reversed chars)`) into a token. -/
def flushRun : Option (Bool × List Char) → List VTok
  | none => []
  | some (true, r) => [VTok.num (digitsVal r.reverse)]
  | some (false, r) => [VTok.alpha r.reverse]

/-- One character of tokenisation: extend the pending run, or flush it and
start a new one (separators flush and start nothing). -/
def vtokStep : List VTok × Option (Bool × List Char) → Char → List VTok × Option (Bool × List Char)
  | (toks, run), c =>
    if c.isDigit then
      match run with
      | some (true, r) => (toks, some (true, c :: r))
      | _ => (toks ++ flushRun run, some (true, [c]))
    else if c.isAlpha then
      match run with
      | some (false, r) => (toks, some (false, c :: r))
      | _ => (toks ++ flushRun run, some (false, [c]))
    else (toks ++ flushRun run, none)

/-- Tokenise a version string into numeric / alphabetic runs. -/
def vtokenize (s : String) : List VTok :=
  let st := s.data.foldl vtokStep ([], none)
  st.1 ++ flushRun st.2

/-- Three-way comparison of two characters by code point. -/
def cmpChar (a b : Char) : Int :=
  if a.toNat < b.toNat then -1 else if b.toNat < a.toNat then 1 else 0

/-- Three-way lexicographic comparison of lists from a three-way
comparison of elements; a strict prefix is smaller. -/
def cmpList (f : α → α → Int) : List α → List α → Int
  | [], [] => 0
  | [], _ :: _ => -1
  | _ :: _, [] => 1
  | a :: as, b :: bs => if f a b = 0 then cmpList f as bs else f a b

/-- Three-way comparison of version tokens: numeric runs numerically,
alphabetic runs lexically, numeric beats alphabetic. -/
def cmpTok : VTok → VTok → Int
  | .num a, .num b => if a < b then -1 else if b < a then 1 else 0
  | .num _, .alpha _ => 1
  | .alpha _, .num _ => -1
  | .alpha a, .alpha b => cmpList cmpChar a b

/-- Modelled from the spec: `rpmUtils.miscutils.compareVerOnly` (the rpm
version/release comparison; third-party code missing from src), per §4.1:
"numeric vs alphabetic run splitting, numeric runs compared numerically,
ties broken lexically". -/
def compareVerOnly (v1 v2 : String) : Int :=
  cmpList cmpTok (vtokenize v1) (vtokenize v2)

/-- `RpmHelper.compare_rpm_versions` (line 198): absent (falsy) version is
lowest; both absent compare equal; otherwise delegate to
`compareVerOnly`. -/
def compare_rpm_versions (v1 v2 : String) : Int :=
  if v1 = "" then (if v2 = "" then 0 else -1)
  else if v2 = "" then 1
  else compareVerOnly v1 v2

/-! ## `RpmHelper.newest_rpm_version`

The source sorts with Python 2 `sorted(versions, rpmutils.compareVerOnly,
reverse=True)` and takes element 0.  CPython's sort is stable, and
`reverse=True` reverses the list before and after sorting, so equal
elements keep their original relative order; the sort is modelled by a
stable insertion sort in which a later element is placed after an earlier
element it does not strictly beat (`compareVerOnly` is proved reflexive,
antisymmetric and transitive below, so every stable sort produces this
same list). -/

/-- Stable descending insertion: place `x` before the first element it
strictly beats. -/
def insertDesc (cmp : String → String → Int) (x : String) : List String → List String
  | [] => [x]
  | y :: ys => if cmp x y > 0 then x :: y :: ys else y :: insertDesc cmp x ys

/-- Stable descending sort (`sorted(l, cmp, reverse=True)`). -/
def sortDesc (cmp : String → String → Int) (l : List String) : List String :=
  l.foldl (fun acc x => insertDesc cmp x acc) []

/-- View of a JSON value as the string it holds (`""` otherwise; the
spec-shaped documents of §6 only put strings in version lists). -/
def asStr : JVal → String
  | .jstr s => s
  | _ => ""

/-- `RpmHelper.newest_rpm_version` (line 221): falsy input (`None`, `""`,
`[]`) gives `None`; a scalar string is returned unchanged; a non-empty
list is sorted descending by `compareVerOnly` and element 0 returned. -/
def newest_rpm_version : JVal → Option String
  | .jstr s => if s = "" then none else some s
  | .jlist l => if l.isEmpty then none
                else (sortDesc compareVerOnly (l.map asStr)).head?
  | _ => none

/-! ## CommandRunner and the effect trace -/

/-- Oracle for the outside world: what exit status and stdout
`CommandRunner(command).run(user=user)` would produce.  The embedded code
only ever reads these two fields (`.status` and `.stdout`). -/
structure World where
  status : String → String → Int
  stdout : String → String → String

/-- One observable effect of a handler: a command executed via
`CommandRunner` as a given user, or a direct file write by
`FilesHandler` (the OS-level `makedirs`/`chown`/`chmod` calls have no
command-level observable and are outside the embedding). -/
inductive Eff where
  | cmd (user command : String)
  | fwrite (dest : String)
deriving DecidableEq

/-! ## RpmHelper command strings (lines 190-332) -/

/-- `RpmHelper.prepcache`. -/
def prepcache_cmd : String := "yum -y makecache"

/-- Command built by `RpmHelper.rpm_package_version`. -/
def rpm_version_cmd (pkg : String) : String :=
  "rpm -q --queryformat \x27%\x7bVERSION\x7d-%\x7bRELEASE\x7d\x27 " ++ pkg

/-- Command built by `RpmHelper.rpm_package_installed`. -/
def rpm_installed_cmd (pkg : String) : String := "rpm -q " ++ pkg

/-- Command built by `RpmHelper.yum_package_available`. -/
def yum_available_cmd (pkg : String) : String :=
  "yum -C -y --showduplicates list available " ++ pkg

/-- Command built by `RpmHelper.install` with `rpms=True` (also reached by
`RpmHelper.downgrade` with its default `rpms=True`, which simply calls
`cls.install(packages)`). -/
def rpm_install_cmd (pkgs : List String) : String :=
  "rpm -U --force --nosignature " ++ pyJoin " " pkgs

/-- Command built by `RpmHelper.install` with `rpms=False`. -/
def yum_install_cmd (pkgs : List String) : String :=
  "yum -y install " ++ pyJoin " " pkgs

/-- `RpmHelper.rpm_package_installed pkg`: runs `rpm -q pkg`, true iff
exit status 0. -/
def rpm_package_installed (w : World) (pkg : String) : Bool :=
  w.status "root" (rpm_installed_cmd pkg) == 0

/-- `RpmHelper.yum_package_available pkg`: true iff the yum list command
exits 0. -/
def yum_package_available (w : World) (pkg : String) : Bool :=
  w.status "root" (yum_available_cmd pkg) == 0

/-- `RpmHelper.rpm_package_version pkg`: the stdout of the rpm query. -/
def rpm_package_version (w : World) (pkg : String) : String :=
  w.stdout "root" (rpm_version_cmd pkg)

/-! ## `PackagesHandler._handle_yum_packages` (lines 365-411)

The loop body queries installed state / availability / installed version
for each entry and queues the package on `installs` or `downgrades`; the
two `if installs:` / `if downgrades:` flushes sit INSIDE the `for` loop in
the source (at the loop body's indentation), so they run after every
package entry, on the accumulated (never cleared) lists.  The fold below
reproduces that placement exactly. -/

/-- State threaded through the per-package loop: the `installs` and
`downgrades` queues and the trace of effects so far. -/
structure YumLoopState where
  installs : List String
  downgrades : List String
  trace : List Eff

/-- One iteration of the `for pkg_name, versions in packages.iteritems()`
loop, including the in-loop flush of the two queues. -/
def yum_pkg_step (w : World) (st : YumLoopState) (entry : String × JVal) : YumLoopState :=
  let ver := newest_rpm_version entry.2
  let pkg := match ver with
             | some v => entry.1 ++ "-" ++ v
             | none => entry.1
  let st1 :=
    if rpm_package_installed w pkg then
      { st with trace := st.trace ++ [Eff.cmd "root" (rpm_installed_cmd pkg)] }
    else if !(yum_package_available w pkg) then
      { st with trace := st.trace ++ [Eff.cmd "root" (rpm_installed_cmd pkg),
                                      Eff.cmd "root" (yum_available_cmd pkg)] }
    else
      let st := { st with trace := st.trace ++ [Eff.cmd "root" (rpm_installed_cmd pkg),
                                                Eff.cmd "root" (yum_available_cmd pkg)] }
      match ver with
      | none => { st with installs := st.installs ++ [pkg] }
      | some v =>
        let current_ver := rpm_package_version w pkg
        let st := { st with trace := st.trace ++ [Eff.cmd "root" (rpm_version_cmd pkg)] }
        let rc := compare_rpm_versions current_ver v
        if rc < 0 then { st with installs := st.installs ++ [pkg] }
        else if rc > 0 then { st with downgrades := st.downgrades ++ [pkg] }
        else st
  let st2 :=
    if !st1.installs.isEmpty then
      { st1 with trace := st1.trace ++ [Eff.cmd "root" (yum_install_cmd st1.installs)] }
    else st1
  if !st2.downgrades.isEmpty then
    { st2 with trace := st2.trace ++ [Eff.cmd "root" (rpm_install_cmd st2.downgrades)] }
  else st2

/-- `PackagesHandler._handle_yum_packages`: prep the yum cache, then run
the per-package loop. -/
def handle_yum_packages (w : World) (packages : List (String × JVal)) : List Eff :=
  (packages.foldl (yum_pkg_step w)
    ⟨[], [], [Eff.cmd "root" prepcache_cmd]⟩).trace

/-- Whether an effect is a bulk mutation command: a `yum -y install ...`
from the installs flush or a `rpm -U --force --nosignature ...` from the
downgrades flush. -/
def isMutationCmd : Eff → Bool
  | .cmd _ c => decide ("yum -y install ".data <+: c.data) ||
                decide ("rpm -U --force --nosignature ".data <+: c.data)
  | .fwrite _ => false

/-- The bulk mutation commands of a trace, everything else (cache prep,
queries) filtered out. -/
def mutationCmds (tr : List Eff) : List Eff :=
  tr.filter isMutationCmd

/-! ## Hooks (`Hook`, lines 103-129; registered by `HupConfig.__init__`)

`HupConfig.__init__` stores each section's raw `triggers` option string in
the `Hook` unchanged (`self.config.get(s, 'triggers')` is a plain string;
it is never split), and `Hook.event` tests `ev_name in self.triggers`,
Python substring containment on that raw string. -/

/-- A registered hook, fields exactly as `Hook.__init__` stores them;
`triggers` is the raw comma-separated option string. -/
structure Hook where
  name : String
  triggers : String
  path : String
  runas : String
  action : String

/-- `Hook.resource_name_get`: `self.path.split('.')[1]`; `none` is the
`IndexError` raised when the path has no dot. -/
def resource_name_get (h : Hook) : Option String :=
  (pySplit '.' h.path).get? 1

/-- The condition of `Hook.event` (line 116): the derived resource name
equals the event's resource and the event name occurs in the raw triggers
string (substring containment). -/
def hook_matches (h : Hook) (ev_name ev_resource : String) : Bool :=
  (resource_name_get h == some ev_resource) && pyInStr ev_name h.triggers

/-- `Hook.event`: run the action via `CommandRunner(self.action).run(user=
self.runas)` when the hook matches, otherwise only `logging.debug` (no
effect); `none` is the `IndexError` from `resource_name_get`. -/
def hook_event (h : Hook) (ev_name ev_object ev_resource : String) : Option (List Eff) :=
  match resource_name_get h with
  | none => none
  | some res =>
    if res == ev_resource && pyInStr ev_name h.triggers then
      some [Eff.cmd h.runas h.action]
    else
      some []

/-- The `for h in self.hooks: self.hooks[h].event(...)` loop of
`ServicesHandler._monitor_service` (lines 599-601): hooks receive the
event in registry order; an `IndexError` in one hook stops the loop (the
flag is `false` when that happened; effects already produced stand). -/
def run_hooks (hooks : List Hook) (ev_name ev_object ev_resource : String) : List Eff × Bool :=
  hooks.foldl
    (fun st h =>
      if st.2 then
        match hook_event h ev_name ev_object ev_resource with
        | none => (st.1, false)
        | some t => (st.1 ++ t, true)
      else st)
    ([], true)

/-! ## Service handlers (`ServicesHandler`, lines 522-647) -/

/-- `ServicesHandler._handle_sysv_command`: the command string built for
each operation (an unknown operation leaves `cmd = ""`, which the source
still runs). -/
def handle_sysv_command (service command : String) : String :=
  if command = "enable" then "/sbin/chkconfig " ++ service ++ " on"
  else if command = "disable" then "/sbin/chkconfig " ++ service ++ " off"
  else if command = "start" then "/sbin/service " ++ service ++ " start"
  else if command = "stop" then "/sbin/service " ++ service ++ " stop"
  else if command = "status" then "/sbin/service " ++ service ++ " status"
  else ""

/-- `ServicesHandler._handle_systemd_command`. -/
def handle_systemd_command (service command : String) : String :=
  let svc := service ++ ".service"
  if command = "enable" then "/bin/systemctl enable " ++ svc
  else if command = "disable" then "/bin/systemctl disable " ++ svc
  else if command = "start" then "/bin/systemctl start " ++ svc
  else if command = "stop" then "/bin/systemctl stop " ++ svc
  else if command = "status" then "/bin/systemctl status " ++ svc
  else ""

/-- Properties of one service entry: the parsed dict (`enabled`,
`ensureRunning`), as an association list. -/
def propGet (props : List (String × JVal)) (k : String) : Option JVal :=
  (props.find? (fun e => e.1 == k)).map (·.2)

/-- `ServicesHandler._initialize_service` (lines 566-585), over an
abstract backend handler `hc` mapping (service, operation) to the command
string it runs.  Returns the trace of commands executed, in order: the
unconditional enable/disable when `enabled` is present, then, when
`ensureRunning` is present, the status query and the start/stop the
observed status demands. -/
def init_service (w : World) (hc : String → String → String) (service : String) (props : List (String × JVal)) : List Eff :=
  let t1 : List Eff :=
    match propGet props "enabled" with
    | none => []
    | some v =>
      if to_boolean v then [Eff.cmd "root" (hc service "enable")]
      else [Eff.cmd "root" (hc service "disable")]
  match propGet props "ensureRunning" with
  | none => t1
  | some v =>
    let ensure := to_boolean v
    let running := w.status "root" (hc service "status") == 0
    let t2 := t1 ++ [Eff.cmd "root" (hc service "status")]
    if ensure && !running then t2 ++ [Eff.cmd "root" (hc service "start")]
    else if !ensure && running then t2 ++ [Eff.cmd "root" (hc service "stop")]
    else t2

/-- `ServicesHandler._monitor_service` (lines 587-601), over an abstract
backend handler.  Only `ensureRunning` is examined; when the service
should run but the status query fails, a start is issued; a non-zero
start status logs a warning and RETURNS (no event); a zero start status
raises `service.restarted` to every hook.  The flag is `false` when a
hook raised `IndexError`. -/
def monitor_service (w : World) (hc : String → String → String) (hooks : List Hook) (resource service : String) (props : List (String × JVal)) : List Eff × Bool :=
  match propGet props "ensureRunning" with
  | none => ([], true)
  | some v =>
    let ensure := to_boolean v
    let running := w.status "root" (hc service "status") == 0
    if ensure && !running then
      let t0 := [Eff.cmd "root" (hc service "status"), Eff.cmd "root" (hc service "start")]
      if !(w.status "root" (hc service "start") == 0) then (t0, true)
      else
        let he := run_hooks hooks "service.restarted" service resource
        (t0 ++ he.1, he.2)
    else ([Eff.cmd "root" (hc service "status")], true)

/-! ## `PackagesHandler.apply_packages` (lines 340-467) -/

/-- `PackagesHandler._package_order`. -/
def package_order : List String := ["dpkg", "rpm", "apt", "yum"]

/-- Python 2 `cmp` on two integers. -/
def cmpInt (a b : Int) : Int := if a < b then -1 else if b < a then 1 else 0

/-- `PackagesHandler._pkgsort` on the manager names (the first components
of the sorted pairs): known managers in `package_order` precedence, a
known manager before an unknown one, unknown ones by lowercased name. -/
def pkgsort (p1 p2 : String) : Int :=
  match package_order.indexOf? p1, package_order.indexOf? p2 with
  | some i1, some i2 => cmpInt i1 i2
  | some _, none => -1
  | none, some _ => 1
  | none, none => cmpList cmpChar (pyLower p1).data (pyLower p2).data

/-- Stable ascending insertion for `sorted(..., PackagesHandler._pkgsort)`:
a later element is placed after every earlier element it is not strictly
below. -/
def insertAsc (cmp : α → α → Int) (x : α) : List α → List α
  | [] => [x]
  | y :: ys => if cmp x y < 0 then x :: y :: ys else y :: insertAsc cmp x ys

/-- Stable ascending comparator sort (CPython's sort is stable). -/
def sortAsc (cmp : α → α → Int) (l : List α) : List α :=
  l.foldl (fun acc x => insertAsc cmp x acc) []

/-- The entries of a dict-shaped value (`iteritems`), `[]` otherwise. -/
def entriesOf : JVal → List (String × JVal)
  | .jdict es => es
  | _ => []

/-- The Python exceptions the embedded code can raise:
`Exception("invalid metadata")`; a `KeyError` from
`self._metadata["config"]`; a `TypeError` from indexing a non-dict
document; an `AttributeError` from `.get` or `.iteritems()` on a value
that is not a dict; an `IndexError` escaping from a hook's
`resource_name_get`. -/
inductive PyErr where
  | invalidMetadata
  | keyError
  | typeError
  | attributeError
  | indexError
deriving DecidableEq

/-- `_handle_yum_packages` as `apply_packages` dispatches it: the
per-manager entries value must be a mapping — `packages.iteritems()`
(line 391) raises `AttributeError` on anything else, though only AFTER
`RpmHelper.prepcache()` (line 390) has already run.  A truthy version
value that is neither a string nor a list (a shape §6 never produces and
`pkg_versions_wf` below excludes) is outside the embedding:
`newest_rpm_version` maps it to `none` where Python 2 would sort a
dict's keys or raise a `TypeError`. -/
def handle_yum_packages_j (w : World) (entries : JVal) : List Eff × Option PyErr :=
  match entries with
  | .jdict es => (handle_yum_packages w es, none)
  | _ => ([Eff.cmd "root" prepcache_cmd], some PyErr.attributeError)

/-- `PackagesHandler.apply_packages`: nothing on a falsy packages value;
a truthy non-mapping raises `AttributeError` at
`self._packages.iteritems()` (line 460), before any command has run;
otherwise sort the (manager, entries) pairs with `_pkgsort` and run each
manager's handler — `yum` is `_handle_yum_packages`; `rpm`, `apt`,
`rubygems` and `python` are registered no-op stubs that never touch
their entries; an unknown manager is skipped with a warning.  The first
manager whose handler raises stops the loop (the exception propagates);
effects already performed stand. -/
def apply_packages (w : World) (packages : Option JVal) : List Eff × Option PyErr :=
  match packages with
  | none => ([], none)
  | some pv =>
    if !truthy pv then ([], none)
    else
      match pv with
      | .jdict es =>
        (sortAsc (fun a b => pkgsort a.1 b.1) es).foldl
          (fun st entry =>
            match st.2 with
            | some _ => st
            | none =>
              if entry.1 = "yum" then
                let r := handle_yum_packages_j w entry.2
                (st.1 ++ r.1, r.2)
              else st)
          ([], none)
      | _ => ([], some PyErr.attributeError)

/-! ## `FilesHandler` (lines 469-519)

Only the command-level observables are embedded: the content write and the
`wget` fetch.  The OS-level `makedirs`/`chown`/`chmod` calls and their
`OSError`s are outside the embedding (the spec treats file
materialisation as an external collaborator, §1/§9), as is the shape of
an individual (dict) file entry's fields — §6-shaped documents
(`metadata_wf` below) give every file entry a dict value. -/

/-- `FilesHandler.apply_files` for one `(dest, meta)` entry: a `content`
key writes the file, else a `source` key fetches it with `wget`, else the
entry is logged as an error and skipped. -/
def apply_file (dest : String) (meta : JVal) : List Eff :=
  match dictGet meta "content" with
  | some _ => [Eff.fwrite dest]
  | none =>
    match dictGet meta "source" with
    | some src => [Eff.cmd "root" ("wget -O " ++ dest ++ " " ++ asStr src)]
    | none => []

/-- `FilesHandler.apply_files`: nothing on a falsy files value; a truthy
non-mapping raises `AttributeError` at `self._files.iteritems()`
(line 476), before any file is touched; else each entry in turn. -/
def apply_files (files : Option JVal) : List Eff × Option PyErr :=
  match files with
  | none => ([], none)
  | some fv =>
    if !truthy fv then ([], none)
    else
      match fv with
      | .jdict es => (es.foldl (fun tr e => tr ++ apply_file e.1 e.2) [], none)
      | _ => ([], some PyErr.attributeError)

/-! ## `ServicesHandler.apply_services` / `monitor_services`

A truthy non-mapping services value raises `AttributeError` at the
`iteritems` of `apply_services` / `monitor_services` (lines 629 / 642),
and a non-mapping per-manager entries value at the `iteritems` of
`_initialize_services` / `_monitor_services` (lines 608 / 604) — the
latter only for a KNOWN backend, since the handler lookup comes first.
The per-service property set is consumed through `entriesOf`: the
claims, and every `metadata_wf` document, only exercise dict-shaped
property sets (the shape §6 prescribes). -/

/-- `ServicesHandler._service_handler`: `sysvinit` and `systemd` are the
known backends. -/
def service_handler (manager : String) : Option (String → String → String) :=
  if manager = "sysvinit" then some handle_sysv_command
  else if manager = "systemd" then some handle_systemd_command
  else none

/-- `ServicesHandler.apply_services`: nothing on a falsy services value;
a truthy non-mapping raises; per manager, an unknown backend is skipped
with a warning, a known one raises on a non-mapping entries value and
otherwise runs `_initialize_service` on every service entry. -/
def apply_services (w : World) (services : Option JVal) : List Eff × Option PyErr :=
  match services with
  | none => ([], none)
  | some sv =>
    if !truthy sv then ([], none)
    else
      match sv with
      | .jdict es =>
        es.foldl
          (fun st entry =>
            match st.2 with
            | some _ => st
            | none =>
              match service_handler entry.1 with
              | none => st
              | some hc =>
                match entry.2 with
                | .jdict ses =>
                  (ses.foldl
                     (fun tr e => tr ++ init_service w hc e.1 (entriesOf e.2))
                     st.1, none)
                | _ => (st.1, some PyErr.attributeError))
          ([], none)
      | _ => ([], some PyErr.attributeError)

/-- `ServicesHandler.monitor_services`: as `apply_services` but running
`_monitor_service`; a hook `IndexError`, like the `AttributeError`s of
the `iteritems` calls, aborts everything after it. -/
def monitor_services (w : World) (hooks : List Hook) (resource : String) (services : Option JVal) : List Eff × Option PyErr :=
  match services with
  | none => ([], none)
  | some sv =>
    if !truthy sv then ([], none)
    else
      match sv with
      | .jdict es =>
        es.foldl
          (fun st entry =>
            match st.2 with
            | some _ => st
            | none =>
              match service_handler entry.1 with
              | none => st
              | some hc =>
                match entry.2 with
                | .jdict ses =>
                  ses.foldl
                    (fun st2 e =>
                      match st2.2 with
                      | some _ => st2
                      | none =>
                        let r := monitor_service w hc hooks resource e.1 (entriesOf e.2)
                        (st2.1 ++ r.1,
                         if r.2 then none else some PyErr.indexError))
                    st
                | _ => (st.1, some PyErr.attributeError))
          ([], none)
      | _ => ([], some PyErr.attributeError)

/-! ## `Metadata` (lines 650-742) -/

/-- `Metadata._init_key`. -/
def init_key : String := "AWS::CloudFormation::Init"

/-- `Metadata._is_valid_metadata` (lines 687-696): valid iff the stored
document is truthy, has the init key and that key's value is truthy; WHEN
VALID the stored document is destructively replaced by that value.
Returns (validity, new stored document). -/
def is_valid_metadata (m : JVal) : Bool × JVal :=
  match dictGet m init_key with
  | some v => if truthy m && truthy v then (true, v) else (false, m)
  | none => (false, m)

/-- `Metadata._process_config` (lines 698-717): packages, then files,
then services, each section optional via `.get`; the first handler to
raise stops the pipeline, its exception propagating with the effects
already performed standing. -/
def process_config (w : World) (cfg : JVal) : List Eff × Option PyErr :=
  let p := apply_packages w (dictGet cfg "packages")
  match p.2 with
  | some e => (p.1, some e)
  | none =>
    let f := apply_files (dictGet cfg "files")
    match f.2 with
    | some e => (p.1 ++ f.1, some e)
    | none =>
      let s := apply_services w (dictGet cfg "services")
      (p.1 ++ f.1 ++ s.1, s.2)

/-- `Metadata.cfn_init` (lines 719-729): raise `invalid metadata` when
validation fails, else process the config section.  The `config` lookup
itself can raise (`KeyError` when absent from a dict, `TypeError` when
the extracted value is not indexable, `AttributeError` when `.get` is
called on a non-dict config), and any exception of `_process_config`
propagates.  Returns the outcome and the document left stored on the
object (mutated by `_is_valid_metadata`). -/
def cfn_init (w : World) (m : JVal) : Except PyErr (List Eff) × JVal :=
  let vm := is_valid_metadata m
  if !vm.1 then (.error .invalidMetadata, vm.2)
  else
    match dictGet vm.2 "config" with
    | none => (match vm.2 with
               | .jdict _ => (.error .keyError, vm.2)
               | _ => (.error .typeError, vm.2))
    | some cfg =>
      match cfg with
      | .jdict _ =>
        let r := process_config w cfg
        (match r.2 with
         | none => Except.ok r.1
         | some e => Except.error e, vm.2)
      | _ => (.error .attributeError, vm.2)

/-- `Metadata.cfn_hup` (lines 731-742): raise `invalid metadata` when
validation fails, else monitor the services of the config section with
the given hooks (`_is_local_metadata` is always true); any exception of
`monitor_services` propagates. -/
def cfn_hup (w : World) (hooks : List Hook) (resource : String) (m : JVal) : Except PyErr (List Eff) × JVal :=
  let vm := is_valid_metadata m
  if !vm.1 then (.error .invalidMetadata, vm.2)
  else
    match dictGet vm.2 "config" with
    | none => (match vm.2 with
               | .jdict _ => (.error .keyError, vm.2)
               | _ => (.error .typeError, vm.2))
    | some cfg =>
      match cfg with
      | .jdict _ =>
        let r := monitor_services w hooks resource (dictGet cfg "services")
        (match r.2 with
         | none => Except.ok r.1
         | some e => Except.error e, vm.2)
      | _ => (.error .attributeError, vm.2)

/-! ## Order theory of the version comparator -/

theorem cmpList_refl {α : Type} (f : α → α → Int) (hf : ∀ x, f x x = 0) :
    ∀ l, cmpList f l l = 0
  | [] => rfl
  | x :: xs => by simp [cmpList, hf x, cmpList_refl f hf xs]

theorem cmpList_antisym {α : Type} (f : α → α → Int)
    (hf : ∀ a b, f a b = -(f b a)) :
    ∀ a b, cmpList f a b = -(cmpList f b a)
  | [], [] => rfl
  | [], _ :: _ => rfl
  | _ :: _, [] => rfl
  | a :: as, b :: bs => by
    by_cases h : f a b = 0
    · have h' : f b a = 0 := by have := hf a b; omega
      simp [cmpList, h, h', cmpList_antisym f hf as bs]
    · have h' : ¬(f b a = 0) := by have := hf a b; omega
      simp [cmpList, h, h', hf a b]

theorem cmp_gt_of_ge_of_gt {α : Type} (f : α → α → Int)
    (hanti : ∀ a b, f a b = -(f b a))
    (htrans : ∀ a b c, 0 ≤ f a b → 0 ≤ f b c → 0 ≤ f a c)
    {a b c : α} (h1 : 0 ≤ f a b) (h2 : 0 < f b c) : 0 < f a c := by
  by_contra hn
  have hca : 0 ≤ f c a := by have := hanti a c; omega
  have hcb : 0 ≤ f c b := htrans c a b hca h1
  have := hanti b c
  omega

theorem cmp_gt_of_gt_of_ge {α : Type} (f : α → α → Int)
    (hanti : ∀ a b, f a b = -(f b a))
    (htrans : ∀ a b c, 0 ≤ f a b → 0 ≤ f b c → 0 ≤ f a c)
    {a b c : α} (h1 : 0 < f a b) (h2 : 0 ≤ f b c) : 0 < f a c := by
  by_contra hn
  have hca : 0 ≤ f c a := by have := hanti a c; omega
  have hba : 0 ≤ f b a := htrans b c a h2 hca
  have := hanti a b
  omega

theorem cmp_zero_trans {α : Type} (f : α → α → Int)
    (hanti : ∀ a b, f a b = -(f b a))
    (htrans : ∀ a b c, 0 ≤ f a b → 0 ≤ f b c → 0 ≤ f a c)
    {a b c : α} (h1 : f a b = 0) (h2 : f b c = 0) : f a c = 0 := by
  have hba : f b a = 0 := by have := hanti a b; omega
  have hcb : f c b = 0 := by have := hanti b c; omega
  have h3 : 0 ≤ f a c := htrans a b c (by omega) (by omega)
  have h4 : 0 ≤ f c a := htrans c b a (by omega) (by omega)
  have := hanti a c
  omega

theorem cmpList_trans {α : Type} (f : α → α → Int)
    (hanti : ∀ a b, f a b = -(f b a))
    (htrans : ∀ a b c, 0 ≤ f a b → 0 ≤ f b c → 0 ≤ f a c) :
    ∀ a b c, 0 ≤ cmpList f a b → 0 ≤ cmpList f b c → 0 ≤ cmpList f a c
  | [], [], _, _, h2 => h2
  | [], _ :: _, _, h1, _ => by simp [cmpList] at h1
  | _ :: _, [], c, _, h2 => by
    cases c with
    | nil => simp [cmpList]
    | cons z zs => simp [cmpList] at h2
  | _ :: _, _ :: _, [], _, _ => by simp [cmpList]
  | a :: as, b :: bs, c :: cs, h1, h2 => by
    by_cases hab : f a b = 0
    · by_cases hbc : f b c = 0
      · have hac : f a c = 0 := cmp_zero_trans f hanti htrans hab hbc
        simp only [cmpList, hab, if_true, hbc, hac] at h1 h2 ⊢
        exact cmpList_trans f hanti htrans as bs cs h1 h2
      · have hbc' : 0 < f b c := by
          simp only [cmpList, hbc, if_false] at h2; omega
        have hac : 0 < f a c := cmp_gt_of_ge_of_gt f hanti htrans (by omega) hbc'
        have hac' : ¬(f a c = 0) := by omega
        simp only [cmpList, hac', if_false]
        omega
    · have hab' : 0 < f a b := by
        simp only [cmpList, hab, if_false] at h1; omega
      by_cases hbc : f b c = 0
      · have hac : 0 < f a c :=
          cmp_gt_of_gt_of_ge f hanti htrans hab' (by omega)
        have hac' : ¬(f a c = 0) := by omega
        simp only [cmpList, hac', if_false]
        omega
      · have hbc' : 0 < f b c := by
          simp only [cmpList, hbc, if_false] at h2; omega
        have hac : 0 < f a c :=
          cmp_gt_of_gt_of_ge f hanti htrans hab' (by omega)
        have hac' : ¬(f a c = 0) := by omega
        simp only [cmpList, hac', if_false]
        omega

theorem cmpChar_refl (a : Char) : cmpChar a a = 0 := by
  simp [cmpChar]

theorem cmpChar_antisym (a b : Char) : cmpChar a b = -(cmpChar b a) := by
  unfold cmpChar
  split_ifs <;> omega

theorem cmpChar_trans (a b c : Char) (h1 : 0 ≤ cmpChar a b) (h2 : 0 ≤ cmpChar b c) :
    0 ≤ cmpChar a c := by
  unfold cmpChar at h1 h2 ⊢
  split_ifs at h1 h2 ⊢ <;> omega

theorem cmpTok_refl (t : VTok) : cmpTok t t = 0 := by
  cases t with
  | num n => simp [cmpTok]
  | alpha s => simpa [cmpTok] using cmpList_refl cmpChar cmpChar_refl s

theorem cmpTok_antisym (a b : VTok) : cmpTok a b = -(cmpTok b a) := by
  cases a with
  | num n =>
    cases b with
    | num m => simp only [cmpTok]; split_ifs <;> omega
    | alpha s => simp [cmpTok]
  | alpha s =>
    cases b with
    | num m => simp [cmpTok]
    | alpha t => simpa [cmpTok] using cmpList_antisym cmpChar cmpChar_antisym s t

theorem cmpTok_trans (a b c : VTok) (h1 : 0 ≤ cmpTok a b) (h2 : 0 ≤ cmpTok b c) :
    0 ≤ cmpTok a c := by
  cases a with
  | num na =>
    cases b with
    | num nb =>
      cases c with
      | num nc =>
        simp only [cmpTok] at h1 h2 ⊢
        split_ifs at h1 h2 ⊢ <;> omega
      | alpha sc => simp [cmpTok]
    | alpha sb =>
      cases c with
      | num nc => simp [cmpTok] at h2
      | alpha sc => simp [cmpTok]
  | alpha sa =>
    cases b with
    | num nb => simp [cmpTok] at h1
    | alpha sb =>
      cases c with
      | num nc => simp [cmpTok] at h2
      | alpha sc =>
        simp only [cmpTok] at h1 h2 ⊢
        exact cmpList_trans cmpChar cmpChar_antisym cmpChar_trans sa sb sc h1 h2

theorem compareVerOnly_refl (v : String) : compareVerOnly v v = 0 :=
  cmpList_refl cmpTok cmpTok_refl (vtokenize v)

theorem compareVerOnly_antisym (a b : String) :
    compareVerOnly a b = -(compareVerOnly b a) :=
  cmpList_antisym cmpTok cmpTok_antisym (vtokenize a) (vtokenize b)

theorem compareVerOnly_trans (a b c : String)
    (h1 : 0 ≤ compareVerOnly a b) (h2 : 0 ≤ compareVerOnly b c) :
    0 ≤ compareVerOnly a c :=
  cmpList_trans cmpTok cmpTok_antisym cmpTok_trans
    (vtokenize a) (vtokenize b) (vtokenize c) h1 h2

/-! ## Head of the descending stable sort -/

/-- The element `sorted(l, cmp, reverse=True)[0]` keeps: the running
maximum of the list, an earlier element winning ties. -/
def runMax (cmp : String → String → Int) (a : String) (xs : List String) : String :=
  xs.foldl (fun h v => if cmp v h > 0 then v else h) a

theorem insertDesc_head (cmp : String → String → Int) (x : String) (l : List String) :
    (insertDesc cmp x l).head? =
      some (match l.head? with
            | none => x
            | some y => if cmp x y > 0 then x else y) := by
  cases l with
  | nil => rfl
  | cons y ys =>
    simp only [insertDesc, List.head?]
    split_ifs <;> simp

theorem sortDesc_head_foldl (cmp : String → String → Int) :
    ∀ (l : List String) (acc : List String),
      (l.foldl (fun a x => insertDesc cmp x a) acc).head? =
        l.foldl
          (fun h x =>
            match h with
            | none => some x
            | some y => some (if cmp x y > 0 then x else y))
          acc.head?
  | [], _ => rfl
  | x :: xs, acc => by
    rw [List.foldl_cons, List.foldl_cons, sortDesc_head_foldl cmp xs (insertDesc cmp x acc),
        insertDesc_head cmp x acc]
    cases acc <;> rfl

theorem foldl_some_runMax (cmp : String → String → Int) :
    ∀ (xs : List String) (y : String),
      xs.foldl
        (fun h x =>
          match h with
          | none => some x
          | some z => some (if cmp x z > 0 then x else z))
        (some y) = some (runMax cmp y xs)
  | [], _ => rfl
  | x :: xs, y => by
    rw [List.foldl_cons, foldl_some_runMax cmp xs]
    simp [runMax]

theorem sortDesc_head (cmp : String → String → Int) (x : String) (xs : List String) :
    (sortDesc cmp (x :: xs)).head? = some (runMax cmp x xs) := by
  unfold sortDesc
  rw [sortDesc_head_foldl cmp (x :: xs) [], List.foldl_cons]
  simpa using foldl_some_runMax cmp xs x

theorem runMax_spec (cmp : String → String → Int)
    (hrefl : ∀ v, cmp v v = 0)
    (hanti : ∀ a b, cmp a b = -(cmp b a))
    (htrans : ∀ a b c, 0 ≤ cmp a b → 0 ≤ cmp b c → 0 ≤ cmp a c) :
    ∀ (xs : List String) (a : String),
      (0 ≤ cmp (runMax cmp a xs) a ∧ ∀ x ∈ xs, 0 ≤ cmp (runMax cmp a xs) x) ∧
      (runMax cmp a xs = a ∨
        ∃ l1 l2, xs = l1 ++ runMax cmp a xs :: l2 ∧
          0 < cmp (runMax cmp a xs) a ∧
          ∀ x ∈ l1, 0 < cmp (runMax cmp a xs) x)
  | [], a => by simp [runMax, hrefl a]
  | x :: xs, a => by
    have hstep : runMax cmp a (x :: xs) = runMax cmp (if cmp x a > 0 then x else a) xs := by
      simp [runMax]
    by_cases hxa : cmp x a > 0
    · set m := runMax cmp x xs with hm
      have hrw : runMax cmp a (x :: xs) = m := by
        rw [hstep, if_pos hxa]
      obtain ⟨⟨hmx, hall⟩, hB⟩ := runMax_spec cmp hrefl hanti htrans xs x
      rw [hrw]
      have hma : 0 < cmp m a := cmp_gt_of_ge_of_gt cmp hanti htrans hmx hxa
      constructor
      · refine ⟨by omega, ?_⟩
        intro z hz
        rcases List.mem_cons.mp hz with h | h
        · subst h; exact hmx
        · exact hall z h
      · right
        rcases hB with h | ⟨l1, l2, hsplit, hstrict0, hstrict⟩
        · exact ⟨[], xs, by rw [List.nil_append, hm, h], hma, by simp⟩
        · refine ⟨x :: l1, l2, by rw [hsplit, List.cons_append], hma, ?_⟩
          intro z hz
          rcases List.mem_cons.mp hz with h | h
          · subst h
            exact hstrict0
          · exact hstrict z h
    · set m := runMax cmp a xs with hm
      have hrw : runMax cmp a (x :: xs) = m := by
        rw [hstep, if_neg hxa]
      obtain ⟨⟨hma, hall⟩, hB⟩ := runMax_spec cmp hrefl hanti htrans xs a
      rw [hrw]
      have hax : 0 ≤ cmp a x := by have := hanti x a; omega
      have hmx : 0 ≤ cmp m x := htrans m a x hma hax
      constructor
      · refine ⟨hma, ?_⟩
        intro z hz
        rcases List.mem_cons.mp hz with h | h
        · subst h; exact hmx
        · exact hall z h
      · rcases hB with h | ⟨l1, l2, hsplit, hstrict0, hstrict⟩
        · exact Or.inl h
        · right
          refine ⟨x :: l1, l2, by rw [hsplit, List.cons_append], hstrict0, ?_⟩
          intro z hz
          rcases List.mem_cons.mp hz with h | h
          · subst h
            exact cmp_gt_of_gt_of_ge cmp hanti htrans hstrict0 hax
          · exact hstrict z h

/-! ## Claims C9 and C10: `newest_rpm_version` and the comparator -/

theorem newest_map_jstr (l : List String) :
    newest_rpm_version (JVal.jlist (l.map JVal.jstr)) =
      if l.isEmpty then none else (sortDesc compareVerOnly l).head? := by
  have h2 : l.map (asStr ∘ JVal.jstr) = l := by
    induction l with
    | nil => rfl
    | cons a t ih => simp [Function.comp, asStr, ih]
  have h1 : (l.map JVal.jstr).isEmpty = l.isEmpty := by cases l <;> rfl
  simp only [newest_rpm_version, List.map_map, h2, h1]

/-- **C9**: `RpmHelper.newest_rpm_version` (the spec's `selectNewest`)
returns null on an empty or absent input rather than throwing; on a
single scalar string it returns that value unchanged; on a non-empty list
it returns a maximum element under the version comparison, ties resolved
in favour of the earliest occurrence (every element strictly before the
returned occurrence compares strictly below it, and no element anywhere
compares above it). -/
theorem C9_newest_rpm_version_spec :
    (newest_rpm_version (JVal.jlist []) = none ∧
     newest_rpm_version JVal.jnull = none) ∧
    (∀ s : String, s ≠ "" → newest_rpm_version (JVal.jstr s) = some s) ∧
    (∀ (l : List String) (m : String),
       newest_rpm_version (JVal.jlist (l.map JVal.jstr)) = some m →
       ∃ l1 l2, l = l1 ++ m :: l2 ∧
         (∀ x ∈ l1, 0 < compareVerOnly m x) ∧
         (∀ x ∈ l, 0 ≤ compareVerOnly m x)) := by
  refine ⟨⟨rfl, rfl⟩, ?_, ?_⟩
  · intro s hs
    simp [newest_rpm_version, hs]
  · intro l m hm
    cases l with
    | nil => simp [newest_rpm_version] at hm
    | cons x xs =>
      rw [newest_map_jstr, List.isEmpty_cons, if_neg (by simp), sortDesc_head] at hm
      have hmeq : runMax compareVerOnly x xs = m := Option.some.inj hm
      obtain ⟨⟨hA1, hA2⟩, hB⟩ :=
        runMax_spec compareVerOnly compareVerOnly_refl compareVerOnly_antisym
          compareVerOnly_trans xs x
      rw [hmeq] at hA1 hA2 hB
      rcases hB with h | ⟨l1, l2, hsplit, h0, hstrict⟩
      · refine ⟨[], xs, by rw [List.nil_append, h], by simp, ?_⟩
        intro z hz
        rcases List.mem_cons.mp hz with hzx | hzxs
        · subst hzx; rw [h, compareVerOnly_refl]
        · exact hA2 z hzxs
      · refine ⟨x :: l1, l2, by rw [hsplit, List.cons_append], ?_, ?_⟩
        · intro z hz
          rcases List.mem_cons.mp hz with hzx | hzl1
          · subst hzx; exact h0
          · exact hstrict z hzl1
        · intro z hz
          rcases List.mem_cons.mp hz with hzx | hzxs
          · subst hzx; exact hA1
          · exact hA2 z hzxs

theorem C9_newest_rpm_version_spec_witness :
    newest_rpm_version (JVal.jstr "2.2") = some "2.2" ∧
    (∃ l1 l2, ["2.0", "2.2.22-1.fc16", "2.2"] = l1 ++ "2.2.22-1.fc16" :: l2 ∧
       (∀ x ∈ l1, 0 < compareVerOnly "2.2.22-1.fc16" x) ∧
       (∀ x ∈ ["2.0", "2.2.22-1.fc16", "2.2"], 0 ≤ compareVerOnly "2.2.22-1.fc16" x)) :=
  ⟨C9_newest_rpm_version_spec.2.1 "2.2" (by decide),
   C9_newest_rpm_version_spec.2.2 ["2.0", "2.2.22-1.fc16", "2.2"] "2.2.22-1.fc16"
     (by decide)⟩

/-- **C10**: the version comparator satisfies `compare(v, v) = 0` for
every `v` (the absent/empty case included) and
`compare(a, b) = -compare(b, a)`; and `newest_rpm_version` is idempotent:
applying it to the one-element list holding a previous result returns
that result. -/
theorem C10_compare_order_props :
    (∀ v, compare_rpm_versions v v = 0) ∧
    (∀ a b, compare_rpm_versions a b = -(compare_rpm_versions b a)) ∧
    (∀ (l : List String) (m : String),
       newest_rpm_version (JVal.jlist (l.map JVal.jstr)) = some m →
       newest_rpm_version (JVal.jlist [JVal.jstr m]) = some m) := by
  refine ⟨?_, ?_, ?_⟩
  · intro v
    by_cases hv : v = "" <;> simp [compare_rpm_versions, hv, compareVerOnly_refl]
  · intro a b
    by_cases ha : a = "" <;> by_cases hb : b = "" <;>
      simp [compare_rpm_versions, ha, hb, compareVerOnly_antisym a b]
  · intro l m _
    rfl

theorem C10_compare_order_props_witness :
    newest_rpm_version (JVal.jlist [JVal.jstr "2.2-1.fc16"]) = some "2.2-1.fc16" :=
  C10_compare_order_props.2.2 ["2.0", "2.2-1.fc16"] "2.2-1.fc16" (by decide)

/-! ## Claims C1 and C5: yum reconciliation -/

theorem no_prefix_clash (p a : String) (b : List Char)
    (h1 : ¬(a.data <+: p.data)) (h2 : ¬(p.data <+: a.data)) :
    ¬(p.data <+: a.data ++ b) := by
  intro hp
  have ha : a.data <+: a.data ++ b := List.prefix_append a.data b
  rcases le_total p.data.length a.data.length with hle | hle
  · exact h2 (List.prefix_of_prefix_length_le hp ha hle)
  · exact h1 (List.prefix_of_prefix_length_le ha hp hle)

theorem isMutationCmd_append_false (u a : String) (b : String)
    (h1 : ¬("yum -y install ".data <+: a.data) ∧ ¬(a.data <+: "yum -y install ".data))
    (h2 : ¬("rpm -U --force --nosignature ".data <+: a.data) ∧
          ¬(a.data <+: "rpm -U --force --nosignature ".data)) :
    isMutationCmd (Eff.cmd u (a ++ b)) = false := by
  simp only [isMutationCmd, Bool.or_eq_false_iff, decide_eq_false_iff_not,
    String.data_append]
  exact ⟨no_prefix_clash _ a b.data h1.2 h1.1, no_prefix_clash _ a b.data h2.2 h2.1⟩

theorem isMutationCmd_installed_q (u pkg : String) :
    isMutationCmd (Eff.cmd u (rpm_installed_cmd pkg)) = false :=
  isMutationCmd_append_false u "rpm -q " pkg
    (by constructor <;> decide) (by constructor <;> decide)

theorem isMutationCmd_available_q (u pkg : String) :
    isMutationCmd (Eff.cmd u (yum_available_cmd pkg)) = false :=
  isMutationCmd_append_false u "yum -C -y --showduplicates list available " pkg
    (by constructor <;> decide) (by constructor <;> decide)

theorem isMutationCmd_version_q (u pkg : String) :
    isMutationCmd (Eff.cmd u (rpm_version_cmd pkg)) = false :=
  isMutationCmd_append_false u
    "rpm -q --queryformat \x27%\x7bVERSION\x7d-%\x7bRELEASE\x7d\x27 " pkg
    (by constructor <;> decide) (by constructor <;> decide)

theorem isMutationCmd_prepcache (u : String) :
    isMutationCmd (Eff.cmd u prepcache_cmd) = false := by
  simp only [isMutationCmd, Bool.or_eq_false_iff, decide_eq_false_iff_not]
  constructor <;> decide

theorem isMutationCmd_yum_install (u : String) (pkgs : List String) :
    isMutationCmd (Eff.cmd u (yum_install_cmd pkgs)) = true := by
  simp only [isMutationCmd, yum_install_cmd, String.data_append, Bool.or_eq_true,
    decide_eq_true_eq]
  exact Or.inl (List.prefix_append _ _)

theorem isMutationCmd_rpm_install (u : String) (pkgs : List String) :
    isMutationCmd (Eff.cmd u (rpm_install_cmd pkgs)) = true := by
  simp only [isMutationCmd, rpm_install_cmd, String.data_append, Bool.or_eq_true,
    decide_eq_true_eq]
  exact Or.inr (List.prefix_append _ _)

/-- World for the C1 failing input: packages `aaa` and `bbb` are not
installed (`rpm -q` exits 1) and are available via yum; every other
command succeeds. -/
def w1 : World :=
  ⟨fun _ c => if c = "rpm -q aaa" then 1 else if c = "rpm -q bbb" then 1 else 0,
   fun _ _ => ""⟩

/-- **C1** (evaluation at the failing input): the two `if installs:` /
`if downgrades:` flushes sit INSIDE the per-package loop of
`PackagesHandler._handle_yum_packages`, so with two uninstalled,
available packages the handler issues a bulk install after EACH package —
`yum -y install aaa` is run before package `bbb` has even been queried,
and then `yum -y install aaa bbb` re-installs `aaa` — instead of the
single post-loop flush the claim (and the source's own comment, "collect
pkgs for batch processing at end") describes. -/
theorem C1_flush_inside_loop :
    handle_yum_packages w1 [("aaa", JVal.jlist []), ("bbb", JVal.jlist [])] =
      [Eff.cmd "root" "yum -y makecache",
       Eff.cmd "root" "rpm -q aaa",
       Eff.cmd "root" "yum -C -y --showduplicates list available aaa",
       Eff.cmd "root" "yum -y install aaa",
       Eff.cmd "root" "rpm -q bbb",
       Eff.cmd "root" "yum -C -y --showduplicates list available bbb",
       Eff.cmd "root" "yum -y install aaa bbb"] ∧
    mutationCmds
        (handle_yum_packages w1 [("aaa", JVal.jlist []), ("bbb", JVal.jlist [])]) =
      [Eff.cmd "root" "yum -y install aaa",
       Eff.cmd "root" "yum -y install aaa bbb"] := by
  constructor <;> rfl

/-- **C5**: in yum reconciliation, for a package with a version `v`
specified whose composite `name-v` is not installed but is available:
installed-version-compares-less queues (and flushes) exactly one bulk
install, greater exactly one bulk downgrade, equal neither; and a
package with no version constraint that is already installed produces
zero install/downgrade commands. -/
theorem C5_yum_reconcile (w : World) (name v cur : String) (hv : v ≠ "")
    (hni : ¬ w.status "root" (rpm_installed_cmd (name ++ "-" ++ v)) = 0)
    (hav : w.status "root" (yum_available_cmd (name ++ "-" ++ v)) = 0)
    (hcur : w.stdout "root" (rpm_version_cmd (name ++ "-" ++ v)) = cur) :
    (compare_rpm_versions cur v < 0 →
       mutationCmds (handle_yum_packages w [(name, JVal.jstr v)]) =
         [Eff.cmd "root" (yum_install_cmd [name ++ "-" ++ v])]) ∧
    (compare_rpm_versions cur v > 0 →
       mutationCmds (handle_yum_packages w [(name, JVal.jstr v)]) =
         [Eff.cmd "root" (rpm_install_cmd [name ++ "-" ++ v])]) ∧
    (compare_rpm_versions cur v = 0 →
       mutationCmds (handle_yum_packages w [(name, JVal.jstr v)]) = []) ∧
    (∀ (w2 : World) (name2 : String) (pv : JVal),
       newest_rpm_version pv = none →
       w2.status "root" (rpm_installed_cmd name2) = 0 →
       mutationCmds (handle_yum_packages w2 [(name2, pv)]) = []) := by
  have hver : newest_rpm_version (JVal.jstr v) = some v := by
    simp [newest_rpm_version, hv]
  have hinst : rpm_package_installed w (name ++ "-" ++ v) = false := by
    simp [rpm_package_installed, hni]
  have havb : yum_package_available w (name ++ "-" ++ v) = true := by
    simp [yum_package_available, hav]
  refine ⟨?_, ?_, ?_, ?_⟩
  · intro hlt
    have h1 : handle_yum_packages w [(name, JVal.jstr v)] =
        [Eff.cmd "root" prepcache_cmd,
         Eff.cmd "root" (rpm_installed_cmd (name ++ "-" ++ v)),
         Eff.cmd "root" (yum_available_cmd (name ++ "-" ++ v)),
         Eff.cmd "root" (rpm_version_cmd (name ++ "-" ++ v)),
         Eff.cmd "root" (yum_install_cmd [name ++ "-" ++ v])] := by
      simp [handle_yum_packages, yum_pkg_step, hver, hinst, havb,
        rpm_package_version, hcur, hlt]
    rw [h1]
    simp [mutationCmds, List.filter, isMutationCmd_prepcache,
      isMutationCmd_installed_q, isMutationCmd_available_q,
      isMutationCmd_version_q, isMutationCmd_yum_install]
  · intro hgt
    have hnlt : ¬(compare_rpm_versions cur v < 0) := by omega
    have h1 : handle_yum_packages w [(name, JVal.jstr v)] =
        [Eff.cmd "root" prepcache_cmd,
         Eff.cmd "root" (rpm_installed_cmd (name ++ "-" ++ v)),
         Eff.cmd "root" (yum_available_cmd (name ++ "-" ++ v)),
         Eff.cmd "root" (rpm_version_cmd (name ++ "-" ++ v)),
         Eff.cmd "root" (rpm_install_cmd [name ++ "-" ++ v])] := by
      simp [handle_yum_packages, yum_pkg_step, hver, hinst, havb,
        rpm_package_version, hcur, hnlt, hgt]
    rw [h1]
    simp [mutationCmds, List.filter, isMutationCmd_prepcache,
      isMutationCmd_installed_q, isMutationCmd_available_q,
      isMutationCmd_version_q, isMutationCmd_rpm_install]
  · intro heq
    have hnlt : ¬(compare_rpm_versions cur v < 0) := by omega
    have hngt : ¬(compare_rpm_versions cur v > 0) := by omega
    have h1 : handle_yum_packages w [(name, JVal.jstr v)] =
        [Eff.cmd "root" prepcache_cmd,
         Eff.cmd "root" (rpm_installed_cmd (name ++ "-" ++ v)),
         Eff.cmd "root" (yum_available_cmd (name ++ "-" ++ v)),
         Eff.cmd "root" (rpm_version_cmd (name ++ "-" ++ v))] := by
      simp [handle_yum_packages, yum_pkg_step, hver, hinst, havb,
        rpm_package_version, hcur, hnlt, hngt]
    rw [h1]
    simp [mutationCmds, List.filter, isMutationCmd_prepcache,
      isMutationCmd_installed_q, isMutationCmd_available_q,
      isMutationCmd_version_q]
  · intro w2 name2 pv hnone hinst2
    have hin : rpm_package_installed w2 name2 = true := by
      simp [rpm_package_installed, hinst2]
    have h1 : handle_yum_packages w2 [(name2, pv)] =
        [Eff.cmd "root" prepcache_cmd,
         Eff.cmd "root" (rpm_installed_cmd name2)] := by
      simp [handle_yum_packages, yum_pkg_step, hnone, hin]
    rw [h1]
    simp [mutationCmds, List.filter, isMutationCmd_prepcache,
      isMutationCmd_installed_q]

/-- World for the C5 witness: `httpd-2.2.10` is not installed, is
available, and the installed `httpd` version reads `2.2.20`. -/
def w5 : World :=
  ⟨fun _ c => if c = rpm_installed_cmd "httpd-2.2.10" then 1 else 0,
   fun _ c => if c = rpm_version_cmd "httpd-2.2.10" then "2.2.20" else ""⟩

theorem C5_yum_reconcile_witness :
    mutationCmds (handle_yum_packages w5 [("httpd", JVal.jstr "2.2.10")]) =
      [Eff.cmd "root" (rpm_install_cmd ["httpd-2.2.10"])] :=
  (C5_yum_reconcile w5 "httpd" "2.2.10" "2.2.20" (by decide) (by decide)
      (by decide) (by decide)).2.1 (by decide)

/-! ## Claims C2 and C3: hook triggers and dispatch -/

/-- A hook as `HupConfig.__init__` registers it from a registration block
with `triggers=service.restarted,config.changed`: the option string is
stored raw. -/
def hookA : Hook :=
  ⟨"cfn-http-restarted", "service.restarted,config.changed",
   "WordPress.WebServer", "root", "/bin/services restarted"⟩

/-- As `hookA` with the two trigger names listed in the other order. -/
def hookB : Hook :=
  ⟨"cfn-http-restarted", "config.changed,service.restarted",
   "WordPress.WebServer", "root", "/bin/services restarted"⟩

/-- **C2 counterexample**: the loaded hook does NOT carry a two-member
trigger set: `Hook.event` tests substring containment on the raw option
string, and the event name `"estarted,config"` — which is not one of the
two comma-separated members — matches `hookA`. -/
theorem C2_triggers_not_a_set :
    hook_matches hookA "estarted,config" "WebServer" = true ∧
    "estarted,config" ∉ pySplit ',' hookA.triggers ∧
    pySplit ',' hookA.triggers = ["service.restarted", "config.changed"] := by
  refine ⟨rfl, by decide, rfl⟩

/-- **C2 (amended)**: a registration block with
`triggers=service.restarted,config.changed` stores the raw
comma-separated string, whose comma-split has exactly two members; event
matching is substring containment on that string, so each of the two
listed event names matches under either listing order (order-independent
for the listed names), but the match is not set membership (see the
counterexample). -/
theorem C2_trigger_matching :
    (pySplit ',' hookA.triggers).length = 2 ∧
    (pySplit ',' hookB.triggers).length = 2 ∧
    hook_matches hookA "service.restarted" "WebServer" = true ∧
    hook_matches hookA "config.changed" "WebServer" = true ∧
    hook_matches hookB "service.restarted" "WebServer" = true ∧
    hook_matches hookB "config.changed" "WebServer" = true := by
  refine ⟨rfl, rfl, by decide, by decide, by decide, by decide⟩

/-- A hook with the single trigger name `service.restarted`. -/
def hookC : Hook :=
  ⟨"h1", "service.restarted", "x.WebServer", "root", "/bin/restart-httpd"⟩

/-- A hook for another resource (`x.Database`), same trigger. -/
def hookD : Hook :=
  ⟨"h2", "service.restarted", "x.Database", "root", "/bin/restart-mysql"⟩

/-- **C3 counterexample**: dispatch executes the action of a hook whose
trigger set — the comma-split members, here just
`{"service.restarted"}` — does NOT contain the event name `"restarted"`:
the code's membership test is substring containment on the raw triggers
string, not membership in a set of event names. -/
theorem C3_dispatch_not_membership :
    run_hooks [hookC] "restarted" "httpd" "WebServer" =
      ([Eff.cmd "root" "/bin/restart-httpd"], true) ∧
    "restarted" ∉ pySplit ',' hookC.triggers := by
  refine ⟨rfl, by decide⟩

theorem run_hooks_go (n o r : String) :
    ∀ (hooks : List Hook), (∀ h ∈ hooks, (resource_name_get h).isSome) →
      ∀ acc : List Eff,
      hooks.foldl
        (fun st h =>
          if st.2 then
            match hook_event h n o r with
            | none => (st.1, false)
            | some t => (st.1 ++ t, true)
          else st)
        (acc, true) =
      (acc ++ (hooks.filter (fun h => hook_matches h n r)).map
         (fun h => Eff.cmd h.runas h.action), true)
  | [], _, acc => by simp
  | h :: hs, hwf, acc => by
    obtain ⟨res, hres⟩ := Option.isSome_iff_exists.mp (hwf h (by simp))
    have hev : hook_event h n o r =
        some (if res == r && pyInStr n h.triggers then [Eff.cmd h.runas h.action]
              else []) := by
      simp only [hook_event, hres]
      split_ifs <;> rfl
    have hmatch : hook_matches h n r = (res == r && pyInStr n h.triggers) := by
      simp [hook_matches, hres]
    have hwf2 : ∀ h2 ∈ hs, (resource_name_get h2).isSome :=
      fun h2 hh => hwf h2 (by simp [hh])
    rw [List.foldl_cons]
    simp only [if_true, hev]
    by_cases hm : (res == r && pyInStr n h.triggers) = true
    · rw [if_pos hm]
      rw [run_hooks_go n o r hs hwf2 (acc ++ [Eff.cmd h.runas h.action])]
      rw [List.filter_cons_of_pos (by rw [hmatch]; exact hm)]
      simp
    · rw [if_neg hm]
      rw [List.append_nil]
      rw [run_hooks_go n o r hs hwf2 acc]
      rw [List.filter_cons_of_neg (by rw [hmatch]; exact hm)]

/-- **C3 (amended)**: for every registry whose hooks all have a second
dot-segment in their path, dispatching an event executes — as the hook's
configured identity — exactly the actions of the hooks whose path's
second dot-segment equals the resource name and whose raw triggers
string contains the event name as a substring, in registry order; every
other hook executes nothing (it is only logged at debug level).  (The
frozen claim's "contains eventName as a member" fails: see the
counterexample.) -/
theorem C3_dispatch_exact (hooks : List Hook) (n o r : String)
    (hwf : ∀ h ∈ hooks, (resource_name_get h).isSome) :
    run_hooks hooks n o r =
      ((hooks.filter (fun h => hook_matches h n r)).map
         (fun h => Eff.cmd h.runas h.action), true) := by
  unfold run_hooks
  rw [run_hooks_go n o r hooks hwf []]
  simp

theorem C3_dispatch_exact_witness :
    run_hooks [hookC, hookD] "service.restarted" "httpd" "WebServer" =
      ([Eff.cmd "root" "/bin/restart-httpd"], true) := by
  rw [C3_dispatch_exact [hookC, hookD] "service.restarted" "httpd" "WebServer"
      (by decide)]
  rfl

/-! ## Claim C4: failed restart fires no event -/

/-- **C4**: in `_monitor_service`, for a service with `ensureRunning`
true whose status query reports not running: when the issued start
command exits non-zero, the pass runs exactly the status and start
commands and DISPATCHES NOTHING to any hook (the warning is logged and
the monitor returns); the `service.restarted` event reaches the hooks
only when the start command exits zero. -/
theorem C4_failed_restart_silent (w : World) (hc : String → String → String)
    (hooks : List Hook) (resource service : String) (props : List (String × JVal))
    (v : JVal) (hprop : propGet props "ensureRunning" = some v)
    (hens : to_boolean v = true)
    (hdown : ¬ w.status "root" (hc service "status") = 0) :
    (¬ w.status "root" (hc service "start") = 0 →
       monitor_service w hc hooks resource service props =
         ([Eff.cmd "root" (hc service "status"),
           Eff.cmd "root" (hc service "start")], true)) ∧
    (w.status "root" (hc service "start") = 0 →
       monitor_service w hc hooks resource service props =
         ([Eff.cmd "root" (hc service "status"),
           Eff.cmd "root" (hc service "start")] ++
            (run_hooks hooks "service.restarted" service resource).1,
          (run_hooks hooks "service.restarted" service resource).2)) := by
  constructor
  · intro hfail
    simp [monitor_service, hprop, hens, hdown, hfail]
  · intro hok
    simp [monitor_service, hprop, hens, hdown, hok]

/-- World for the C4 witness: every command exits 1 (the service is down
and its restart fails). -/
def w4 : World := ⟨fun _ _ => 1, fun _ _ => ""⟩

theorem C4_failed_restart_silent_witness :
    monitor_service w4 handle_sysv_command [hookC] "WebServer" "httpd"
        [("ensureRunning", JVal.jstr "true")] =
      ([Eff.cmd "root" "/sbin/service httpd status",
        Eff.cmd "root" "/sbin/service httpd start"], true) :=
  (C4_failed_restart_silent w4 handle_sysv_command [hookC] "WebServer" "httpd"
      [("ensureRunning", JVal.jstr "true")] (JVal.jstr "true")
      rfl (by decide) (by decide)).1 (by decide)

/-! ## Claim C8: unconditional enable/disable, conditional start/stop -/

/-- The five operations `_initialize_service` can ask of a backend
handler. -/
def svc_ops : List String := ["enable", "disable", "start", "stop", "status"]

/-- **C8**: for every service spec with `enabled` set, enforcement issues
the enable (true) or disable (false) command first and unconditionally —
no status query precedes it and no current-enabled-state query exists at
all; a status query is issued exactly when `ensureRunning` is present;
start is issued exactly when `ensureRunning` is true and the observed
status is non-zero, stop exactly when `ensureRunning` is false and the
observed status is zero.  (`hinj`: the backend maps the five operations
of one service to five distinct command strings, as both shipped
backends do.) -/
theorem C8_enforce_service (w : World) (hc : String → String → String)
    (service : String) (props : List (String × JVal))
    (hinj : ∀ op ∈ svc_ops, ∀ op2 ∈ svc_ops, hc service op = hc service op2 → op = op2) :
    (∀ v, propGet props "enabled" = some v →
       (init_service w hc service props).head? =
         some (Eff.cmd "root"
           (hc service (if to_boolean v then "enable" else "disable")))) ∧
    ((Eff.cmd "root" (hc service "status") ∈ init_service w hc service props) ↔
       (propGet props "ensureRunning").isSome) ∧
    ((Eff.cmd "root" (hc service "start") ∈ init_service w hc service props) ↔
       (∃ v, propGet props "ensureRunning" = some v ∧ to_boolean v = true ∧
          ¬ w.status "root" (hc service "status") = 0)) ∧
    ((Eff.cmd "root" (hc service "stop") ∈ init_service w hc service props) ↔
       (∃ v, propGet props "ensureRunning" = some v ∧ to_boolean v = false ∧
          w.status "root" (hc service "status") = 0)) := by
  have hne : ∀ o1 o2 : String, o1 ∈ svc_ops → o2 ∈ svc_ops → o1 ≠ o2 →
      Eff.cmd "root" (hc service o1) ≠ Eff.cmd "root" (hc service o2) := by
    intro o1 o2 h1 h2 hno heq
    injection heq with hu hcmd
    exact hno (hinj o1 h1 o2 h2 hcmd)
  have hTE := hne "status" "enable" (by decide) (by decide) (by decide)
  have hTD := hne "status" "disable" (by decide) (by decide) (by decide)
  have hSE := hne "start" "enable" (by decide) (by decide) (by decide)
  have hSD := hne "start" "disable" (by decide) (by decide) (by decide)
  have hST := hne "start" "status" (by decide) (by decide) (by decide)
  have hSP := hne "start" "stop" (by decide) (by decide) (by decide)
  have hPE := hne "stop" "enable" (by decide) (by decide) (by decide)
  have hPD := hne "stop" "disable" (by decide) (by decide) (by decide)
  have hPT := hne "stop" "status" (by decide) (by decide) (by decide)
  have hPS := hne "stop" "start" (by decide) (by decide) (by decide)
  refine ⟨?_, ?_, ?_, ?_⟩
  · intro v0 hv0
    rcases hR : propGet props "ensureRunning" with _ | u
    · by_cases hb : to_boolean v0 <;> simp [init_service, hv0, hR, hb]
    · by_cases hb : to_boolean v0 <;>
        by_cases hs : w.status "root" (hc service "status") = 0 <;>
          by_cases hu : to_boolean u <;>
            simp [init_service, hv0, hR, hb, hs, hu]
  · rcases hE : propGet props "enabled" with _ | v0 <;>
      rcases hR : propGet props "ensureRunning" with _ | u
    · simp [init_service, hE, hR]
    · by_cases hu : to_boolean u <;>
        by_cases hs : w.status "root" (hc service "status") = 0 <;>
          simp [init_service, hE, hR, hu, hs]
    · by_cases hb : to_boolean v0 <;> simp [init_service, hE, hR, hb, hTE, hTD]
    · by_cases hb : to_boolean v0 <;>
        by_cases hu : to_boolean u <;>
          by_cases hs : w.status "root" (hc service "status") = 0 <;>
            simp [init_service, hE, hR, hb, hu, hs, hTE, hTD]
  · rcases hE : propGet props "enabled" with _ | v0 <;>
      rcases hR : propGet props "ensureRunning" with _ | u
    · simp [init_service, hE, hR]
    · by_cases hu : to_boolean u <;>
        by_cases hs : w.status "root" (hc service "status") = 0 <;>
          simp [init_service, hE, hR, hu, hs, hST, hSP]
    · by_cases hb : to_boolean v0 <;> simp [init_service, hE, hR, hb, hSE, hSD]
    · by_cases hb : to_boolean v0 <;>
        by_cases hu : to_boolean u <;>
          by_cases hs : w.status "root" (hc service "status") = 0 <;>
            simp [init_service, hE, hR, hb, hu, hs, hSE, hSD, hST, hSP]
  · rcases hE : propGet props "enabled" with _ | v0 <;>
      rcases hR : propGet props "ensureRunning" with _ | u
    · simp [init_service, hE, hR]
    · by_cases hu : to_boolean u <;>
        by_cases hs : w.status "root" (hc service "status") = 0 <;>
          simp [init_service, hE, hR, hu, hs, hPT, hPS]
    · by_cases hb : to_boolean v0 <;> simp [init_service, hE, hR, hb, hPE, hPD]
    · by_cases hb : to_boolean v0 <;>
        by_cases hu : to_boolean u <;>
          by_cases hs : w.status "root" (hc service "status") = 0 <;>
            simp [init_service, hE, hR, hb, hu, hs, hPE, hPD, hPT, hPS]

theorem C8_enforce_service_witness :
    (init_service w4 handle_sysv_command "httpd"
        [("enabled", JVal.jbool true), ("ensureRunning", JVal.jbool true)]).head? =
      some (Eff.cmd "root" "/sbin/chkconfig httpd on") ∧
    (Eff.cmd "root" "/sbin/service httpd start" ∈
      init_service w4 handle_sysv_command "httpd"
        [("enabled", JVal.jbool true), ("ensureRunning", JVal.jbool true)]) := by
  have h := C8_enforce_service w4 handle_sysv_command "httpd"
      [("enabled", JVal.jbool true), ("ensureRunning", JVal.jbool true)] (by decide)
  exact ⟨(h.1 (JVal.jbool true) rfl).trans rfl,
         (h.2.2.1).mpr ⟨JVal.jbool true, rfl, rfl, by decide⟩⟩

/-! ## Claims C6 and C7: the Metadata entry points -/

/-- World in which every command succeeds with empty output. -/
def wTriv : World := ⟨fun _ _ => 0, fun _ _ => ""⟩

/-- **C6 counterexample**: a document whose init-configuration key is
present and non-empty but whose extracted value has no `config` entry:
`cfn_init` still raises (a `KeyError` from `self._metadata["config"]`),
so "raises exactly when the init key is absent/empty" is too strong. -/
theorem C6_missing_config_raises :
    (cfn_init wTriv (JVal.jdict [(init_key, JVal.jdict [("x", JVal.jstr "y")])])).1 =
      Except.error PyErr.keyError ∧
    truthy (JVal.jdict [("x", JVal.jstr "y")]) = true ∧
    dictGet (JVal.jdict [(init_key, JVal.jdict [("x", JVal.jstr "y")])]) init_key =
      some (JVal.jdict [("x", JVal.jstr "y")]) :=
  ⟨rfl, rfl, rfl⟩

/-! ### §6 document shape (`metadata_wf`)

`metadata_wf` picks out the documents shaped as spec §6 prescribes; on
them none of the shape-error paths above is reachable, so `cfn_init`
runs every handler to completion whatever the command outcomes are. -/

/-- A string-valued JSON leaf. -/
def isJStr : JVal → Bool
  | .jstr _ => true
  | _ => false

/-- Well-formed version constraint of one package entry: a version
string, a list of version strings, or any falsy value (the handler
skips falsy values before parsing them). -/
def pkg_versions_wf (v : JVal) : Bool :=
  match v with
  | .jstr _ => true
  | .jlist l => l.all isJStr
  | u => !truthy u

/-- §6 shape of the packages section: falsy, or a mapping whose
per-manager entries are mappings of well-formed version constraints. -/
def packages_wf (v : JVal) : Bool :=
  !truthy v ||
  (match v with
   | .jdict es => es.all (fun e =>
       match e.2 with
       | .jdict ps => ps.all (fun q => pkg_versions_wf q.2)
       | _ => false)
   | _ => false)

/-- §6 shape of the files section: falsy, or a mapping of dict metas. -/
def files_wf (v : JVal) : Bool :=
  !truthy v ||
  (match v with
   | .jdict es => es.all (fun e =>
       match e.2 with
       | .jdict _ => true
       | _ => false)
   | _ => false)

/-- §6 shape of the services section: falsy, or a mapping whose
per-manager entries are mappings of dict-shaped property sets. -/
def services_wf (v : JVal) : Bool :=
  !truthy v ||
  (match v with
   | .jdict es => es.all (fun e =>
       match e.2 with
       | .jdict ses => ses.all (fun q =>
           match q.2 with
           | .jdict _ => true
           | _ => false)
       | _ => false)
   | _ => false)

/-- An optional config section is well-formed (absent counts). -/
def section_wf (p : JVal → Bool) : Option JVal → Bool
  | none => true
  | some v => p v

/-- A document shaped as §6 prescribes: it passes the init-key
validation, the extracted value holds a dict `config`, and each present
section is well-formed for its handler. -/
def metadata_wf (m : JVal) : Bool :=
  (is_valid_metadata m).1 &&
  (match dictGet (is_valid_metadata m).2 "config" with
   | some (JVal.jdict ces) =>
     section_wf packages_wf (dictGet (JVal.jdict ces) "packages") &&
     section_wf files_wf (dictGet (JVal.jdict ces) "files") &&
     section_wf services_wf (dictGet (JVal.jdict ces) "services")
   | _ => false)

/-! ### The error discipline of the handlers -/

theorem foldl_snd_inv {β : Type} (P : Option PyErr → Prop)
    (step : List Eff × Option PyErr → β → List Eff × Option PyErr)
    (hstep : ∀ st b, P st.2 → P (step st b).2) :
    ∀ (l : List β) (init : List Eff × Option PyErr),
      P init.2 → P ((l.foldl step init).2)
  | [], _, h => h
  | b :: bs, init, h =>
    foldl_snd_inv P step hstep bs (step init b) (hstep init b h)

theorem foldl_snd_none {β : Type}
    (step : List Eff × Option PyErr → β → List Eff × Option PyErr) :
    ∀ (l : List β),
      (∀ st b, b ∈ l → st.2 = none → (step st b).2 = none) →
      ∀ init : List Eff × Option PyErr,
        init.2 = none → ((l.foldl step init).2) = none
  | [], _, _, h => h
  | b :: bs, hstep, init, h =>
    foldl_snd_none step bs
      (fun st b2 hb2 => hstep st b2 (List.mem_cons_of_mem b hb2))
      (step init b) (hstep init b (List.mem_cons_self b bs) h)

theorem foldl_snd_congr {β : Type}
    (step1 step2 : List Eff × Option PyErr → β → List Eff × Option PyErr)
    (hcong : ∀ s1 s2 b, s1.2 = s2.2 → (step1 s1 b).2 = (step2 s2 b).2) :
    ∀ (l : List β) (i1 i2 : List Eff × Option PyErr), i1.2 = i2.2 →
      (l.foldl step1 i1).2 = (l.foldl step2 i2).2
  | [], _, _, h => h
  | b :: bs, i1, i2, h =>
    foldl_snd_congr step1 step2 hcong bs (step1 i1 b) (step2 i2 b)
      (hcong i1 i2 b h)

theorem handle_yum_packages_j_snd (w : World) (v : JVal) :
    (handle_yum_packages_j w v).2 = none ∨
      (handle_yum_packages_j w v).2 = some PyErr.attributeError := by
  cases v <;> simp [handle_yum_packages_j]

theorem handle_yum_packages_j_snd_congr (w w2 : World) (v : JVal) :
    (handle_yum_packages_j w v).2 = (handle_yum_packages_j w2 v).2 := by
  cases v <;> rfl

theorem apply_packages_snd (w : World) (pv : Option JVal) :
    (apply_packages w pv).2 = none ∨
      (apply_packages w pv).2 = some PyErr.attributeError := by
  rcases pv with _ | v
  · exact Or.inl rfl
  · by_cases ht : truthy v
    · rcases v with _ | b | n | s | l | es
      · simp [truthy] at ht
      · simp [apply_packages, ht]
      · simp [apply_packages, ht]
      · simp [apply_packages, ht]
      · simp [apply_packages, ht]
      · simp only [apply_packages, ht, Bool.not_true, Bool.false_eq_true,
          if_false]
        refine foldl_snd_inv
          (fun o => o = none ∨ o = some PyErr.attributeError) _ ?_ _ _
          (Or.inl rfl)
        intro st b2 hP
        rcases hst : st.2 with _ | e
        · by_cases hy : b2.1 = "yum"
          · simpa [hst, hy] using handle_yum_packages_j_snd w b2.2
          · simpa [hst, hy] using Or.inl hst
        · simpa [hst] using hP
    · simp [apply_packages, ht]

theorem apply_packages_snd_congr (w w2 : World) (pv : Option JVal) :
    (apply_packages w pv).2 = (apply_packages w2 pv).2 := by
  rcases pv with _ | v
  · rfl
  · by_cases ht : truthy v
    · rcases v with _ | b | n | s | l | es
      · simp [truthy] at ht
      · simp [apply_packages, ht]
      · simp [apply_packages, ht]
      · simp [apply_packages, ht]
      · simp [apply_packages, ht]
      · simp only [apply_packages, ht, Bool.not_true, Bool.false_eq_true,
          if_false]
        refine foldl_snd_congr _ _ ?_ _ _ _ rfl
        intro s1 s2 b2 h
        rcases hs1 : s1.2 with _ | e
        · have hs2 : s2.2 = none := h.symm.trans hs1
          by_cases hy : b2.1 = "yum"
          · simpa [hs1, hs2, hy] using handle_yum_packages_j_snd_congr w w2 b2.2
          · simpa [hs1, hs2, hy] using h
        · have hs2 : s2.2 = some e := h.symm.trans hs1
          simp [hs1, hs2]
    · simp [apply_packages, ht]

theorem apply_files_snd (fv : Option JVal) :
    (apply_files fv).2 = none ∨
      (apply_files fv).2 = some PyErr.attributeError := by
  rcases fv with _ | v
  · exact Or.inl rfl
  · by_cases ht : truthy v
    · rcases v with _ | b | n | s | l | es <;> simp [apply_files, ht]
    · simp [apply_files, ht]

theorem apply_services_snd (w : World) (sv : Option JVal) :
    (apply_services w sv).2 = none ∨
      (apply_services w sv).2 = some PyErr.attributeError := by
  rcases sv with _ | v
  · exact Or.inl rfl
  · by_cases ht : truthy v
    · rcases v with _ | b | n | s | l | es
      · simp [truthy] at ht
      · simp [apply_services, ht]
      · simp [apply_services, ht]
      · simp [apply_services, ht]
      · simp [apply_services, ht]
      · simp only [apply_services, ht, Bool.not_true, Bool.false_eq_true,
          if_false]
        refine foldl_snd_inv
          (fun o => o = none ∨ o = some PyErr.attributeError) _ ?_ _ _
          (Or.inl rfl)
        intro st b2 hP
        rcases hst : st.2 with _ | e
        · rcases hh : service_handler b2.1 with _ | hc
          · simpa [hst, hh] using Or.inl hst
          · rcases hb2 : b2.2 with _ | bb | nn | ss | ll | ses <;>
              simp [hst, hh, hb2]
        · simpa [hst] using hP
    · simp [apply_services, ht]

theorem apply_services_snd_congr (w w2 : World) (sv : Option JVal) :
    (apply_services w sv).2 = (apply_services w2 sv).2 := by
  rcases sv with _ | v
  · rfl
  · by_cases ht : truthy v
    · rcases v with _ | b | n | s | l | es
      · simp [truthy] at ht
      · simp [apply_services, ht]
      · simp [apply_services, ht]
      · simp [apply_services, ht]
      · simp [apply_services, ht]
      · simp only [apply_services, ht, Bool.not_true, Bool.false_eq_true,
          if_false]
        refine foldl_snd_congr _ _ ?_ _ _ _ rfl
        intro s1 s2 b2 h
        rcases hs1 : s1.2 with _ | e
        · have hs2 : s2.2 = none := h.symm.trans hs1
          rcases hh : service_handler b2.1 with _ | hc
          · simpa [hs1, hs2, hh] using h
          · rcases hb2 : b2.2 with _ | bb | nn | ss | ll | ses <;>
              simp [hs1, hs2, hh, hb2]
        · have hs2 : s2.2 = some e := h.symm.trans hs1
          simp [hs1, hs2]
    · simp [apply_services, ht]

theorem process_config_snd (w : World) (cfg : JVal) :
    (process_config w cfg).2 = none ∨
      (process_config w cfg).2 = some PyErr.attributeError := by
  unfold process_config
  rcases hp : (apply_packages w (dictGet cfg "packages")).2 with _ | e
  · rcases hf : (apply_files (dictGet cfg "files")).2 with _ | e2
    · simpa [hp, hf] using apply_services_snd w (dictGet cfg "services")
    · rcases apply_files_snd (dictGet cfg "files") with h | h
      · rw [hf] at h; cases h
      · rw [hf] at h
        simpa [hp, hf] using Option.some.inj h
  · rcases apply_packages_snd w (dictGet cfg "packages") with h | h
    · rw [hp] at h; cases h
    · rw [hp] at h
      simpa [hp] using Option.some.inj h

theorem process_config_snd_congr (w w2 : World) (cfg : JVal) :
    (process_config w cfg).2 = (process_config w2 cfg).2 := by
  have hpc := apply_packages_snd_congr w w2 (dictGet cfg "packages")
  have hsc := apply_services_snd_congr w w2 (dictGet cfg "services")
  unfold process_config
  rcases hp : (apply_packages w (dictGet cfg "packages")).2 with _ | e
  · have hp2 : (apply_packages w2 (dictGet cfg "packages")).2 = none :=
      hpc.symm.trans hp
    rcases hf : (apply_files (dictGet cfg "files")).2 with _ | e2
    · simpa [hp, hp2, hf] using hsc
    · simp [hp, hp2, hf]
  · have hp2 : (apply_packages w2 (dictGet cfg "packages")).2 = some e :=
      hpc.symm.trans hp
    simp [hp, hp2]

/-! ### Well-formed documents run every handler to completion -/

theorem all_insertAsc {α : Type} (cmp : α → α → Int) (p : α → Bool) (x : α) :
    ∀ l : List α, (insertAsc cmp x l).all p = (p x && l.all p)
  | [] => by simp [insertAsc]
  | y :: ys => by
    simp only [insertAsc]
    split_ifs
    · simp [List.all_cons]
    · rw [List.all_cons, all_insertAsc cmp p x ys, List.all_cons,
          ← Bool.and_assoc, Bool.and_comm (p y) (p x), Bool.and_assoc]

theorem all_sortAsc {α : Type} (cmp : α → α → Int) (p : α → Bool) :
    ∀ l acc : List α,
      ((l.foldl (fun acc x => insertAsc cmp x acc) acc).all p) =
        (acc.all p && l.all p)
  | [], acc => by simp
  | x :: xs, acc => by
    rw [List.foldl_cons, all_sortAsc cmp p xs (insertAsc cmp x acc),
        all_insertAsc, List.all_cons, Bool.and_comm (p x) (acc.all p),
        Bool.and_assoc]

theorem mem_sortAsc_all {α : Type} (cmp : α → α → Int) (p : α → Bool)
    (l : List α) (hall : l.all p = true) :
    ∀ b ∈ sortAsc cmp l, p b = true := by
  intro b hb
  have h2 : (sortAsc cmp l).all p = true := by
    unfold sortAsc
    rw [all_sortAsc cmp p l []]
    simpa using hall
  exact List.all_eq_true.mp h2 b hb

theorem apply_packages_wf (w : World) (pv : Option JVal)
    (h : section_wf packages_wf pv = true) :
    (apply_packages w pv).2 = none := by
  rcases pv with _ | v
  · rfl
  · by_cases ht : truthy v
    · rcases v with _ | b | n | s | l | es
      · simp [truthy] at ht
      · simp [section_wf, packages_wf, ht] at h
      · simp [section_wf, packages_wf, ht] at h
      · simp [section_wf, packages_wf, ht] at h
      · simp [section_wf, packages_wf, ht] at h
      · have h2 : es.all (fun e =>
            match e.2 with
            | JVal.jdict ps => ps.all (fun q => pkg_versions_wf q.2)
            | _ => false) = true := by
          simpa [section_wf, packages_wf, ht] using h
        simp only [apply_packages, ht, Bool.not_true, Bool.false_eq_true,
          if_false]
        refine foldl_snd_none _ _ ?_ _ rfl
        intro st b2 hb2 hst
        have hbp := mem_sortAsc_all _ _ es h2 b2 hb2
        by_cases hy : b2.1 = "yum"
        · rcases hb2v : b2.2 with _ | bb | nn | ss | ll | ps <;>
            simp [hb2v] at hbp <;>
            simp [hst, hy, hb2v, handle_yum_packages_j]
        · simp [hst, hy]
    · simp [apply_packages, ht]

theorem apply_files_wf (fv : Option JVal)
    (h : section_wf files_wf fv = true) :
    (apply_files fv).2 = none := by
  rcases fv with _ | v
  · rfl
  · by_cases ht : truthy v
    · rcases v with _ | b | n | s | l | es
      · simp [truthy] at ht
      · simp [section_wf, files_wf, ht] at h
      · simp [section_wf, files_wf, ht] at h
      · simp [section_wf, files_wf, ht] at h
      · simp [section_wf, files_wf, ht] at h
      · simp [apply_files, ht]
    · simp [apply_files, ht]

theorem apply_services_wf (w : World) (sv : Option JVal)
    (h : section_wf services_wf sv = true) :
    (apply_services w sv).2 = none := by
  rcases sv with _ | v
  · rfl
  · by_cases ht : truthy v
    · rcases v with _ | b | n | s | l | es
      · simp [truthy] at ht
      · simp [section_wf, services_wf, ht] at h
      · simp [section_wf, services_wf, ht] at h
      · simp [section_wf, services_wf, ht] at h
      · simp [section_wf, services_wf, ht] at h
      · have h2 : es.all (fun e =>
            match e.2 with
            | JVal.jdict ses => ses.all (fun q =>
                match q.2 with
                | JVal.jdict _ => true
                | _ => false)
            | _ => false) = true := by
          simpa [section_wf, services_wf, ht] using h
        simp only [apply_services, ht, Bool.not_true, Bool.false_eq_true,
          if_false]
        refine foldl_snd_none _ _ ?_ _ rfl
        intro st b2 hb2 hst
        have hbp := List.all_eq_true.mp h2 b2 hb2
        rcases hh : service_handler b2.1 with _ | hc
        · simp [hst, hh]
        · rcases hb2v : b2.2 with _ | bb | nn | ss | ll | ses <;>
            simp [hb2v] at hbp <;>
            simp [hst, hh, hb2v]
    · simp [apply_services, ht]

theorem process_config_wf (w : World) (ces : List (String × JVal))
    (hp : section_wf packages_wf (dictGet (JVal.jdict ces) "packages") = true)
    (hf : section_wf files_wf (dictGet (JVal.jdict ces) "files") = true)
    (hs : section_wf services_wf (dictGet (JVal.jdict ces) "services") = true) :
    (process_config w (JVal.jdict ces)).2 = none := by
  unfold process_config
  simp [apply_packages_wf w _ hp, apply_files_wf _ hf, apply_services_wf w _ hs]

/-- **C6 (amended)**: `cfn_init` raises the invalid-metadata error
exactly when the document fails the init-key validation; a document
that passes validation can still raise shape errors (a missing `config`
raises `KeyError`, non-mapping sections or per-manager entries raise
`AttributeError`, a non-indexable extracted value raises `TypeError`);
on a document shaped as §6 prescribes (`metadata_wf`) `cfn_init`
succeeds; and on every document its success is independent of the
world — package, file and service operation failures (non-zero command
statuses) are logged and absorbed and never make the entry point
fail. -/
theorem C6_cfn_init_error_discipline (w w2 : World) (m : JVal) :
    ((cfn_init w m).1 = Except.error PyErr.invalidMetadata ↔
       (is_valid_metadata m).1 = false) ∧
    (metadata_wf m = true → (cfn_init w m).1.isOk = true) ∧
    (cfn_init w m).1.isOk = (cfn_init w2 m).1.isOk := by
  rcases hvm : is_valid_metadata m with ⟨vb, v2⟩
  cases vb
  · refine ⟨by simp [cfn_init, hvm], ?_, by simp [cfn_init, hvm]⟩
    intro hwf
    rw [metadata_wf, hvm] at hwf
    simp at hwf
  · rcases hcg : dictGet v2 "config" with _ | (_ | cb | cn | cs | cl | ces)
    · refine ⟨?_, ?_, ?_⟩
      · cases v2 <;> simp [cfn_init, hvm, hcg]
      · intro hwf
        rw [metadata_wf, hvm] at hwf
        simp [hcg] at hwf
      · cases v2 <;> simp [cfn_init, hvm, hcg]
    · refine ⟨by simp [cfn_init, hvm, hcg], ?_, by simp [cfn_init, hvm, hcg]⟩
      intro hwf
      rw [metadata_wf, hvm] at hwf
      simp [hcg] at hwf
    · refine ⟨by simp [cfn_init, hvm, hcg], ?_, by simp [cfn_init, hvm, hcg]⟩
      intro hwf
      rw [metadata_wf, hvm] at hwf
      simp [hcg] at hwf
    · refine ⟨by simp [cfn_init, hvm, hcg], ?_, by simp [cfn_init, hvm, hcg]⟩
      intro hwf
      rw [metadata_wf, hvm] at hwf
      simp [hcg] at hwf
    · refine ⟨by simp [cfn_init, hvm, hcg], ?_, by simp [cfn_init, hvm, hcg]⟩
      intro hwf
      rw [metadata_wf, hvm] at hwf
      simp [hcg] at hwf
    · refine ⟨by simp [cfn_init, hvm, hcg], ?_, by simp [cfn_init, hvm, hcg]⟩
      intro hwf
      rw [metadata_wf, hvm] at hwf
      simp [hcg] at hwf
    · rcases hpc : (process_config w (JVal.jdict ces)).2 with _ | e
      · have hpc2 : (process_config w2 (JVal.jdict ces)).2 = none :=
          (process_config_snd_congr w w2 (JVal.jdict ces)).symm.trans hpc
        exact ⟨by simp [cfn_init, hvm, hcg, hpc],
               fun _ => by
                 simp [cfn_init, hvm, hcg, hpc, Except.isOk, Except.toBool],
               by simp [cfn_init, hvm, hcg, hpc, hpc2, Except.isOk,
                    Except.toBool]⟩
      · have he : e = PyErr.attributeError := by
          rcases process_config_snd w (JVal.jdict ces) with h | h
          · rw [hpc] at h; cases h
          · rw [hpc] at h; exact Option.some.inj h
        have hpc2 : (process_config w2 (JVal.jdict ces)).2 = some e :=
          (process_config_snd_congr w w2 (JVal.jdict ces)).symm.trans hpc
        refine ⟨by simp [cfn_init, hvm, hcg, hpc, he], ?_,
          by simp [cfn_init, hvm, hcg, hpc, hpc2, Except.isOk,
               Except.toBool]⟩
        intro hwf
        exfalso
        rw [metadata_wf, hvm] at hwf
        simp only [hcg, Bool.true_and, Bool.and_eq_true] at hwf
        rw [process_config_wf w ces hwf.1.1 hwf.1.2 hwf.2] at hpc
        cases hpc

/-- §6-shaped document for the C6 witness: one yum package with a
version list and one sysvinit service. -/
def docW : JVal :=
  JVal.jdict [(init_key, JVal.jdict [("config", JVal.jdict
    [("packages", JVal.jdict [("yum", JVal.jdict
        [("httpd", JVal.jlist [JVal.jstr "2.2.22"])])]),
     ("services", JVal.jdict [("sysvinit", JVal.jdict
        [("httpd", JVal.jdict [("enabled", JVal.jbool true)])])])])])]

theorem C6_cfn_init_error_discipline_witness :
    (cfn_init w4 docW).1.isOk = true :=
  (C6_cfn_init_error_discipline w4 wTriv docW).2.1 (by decide)

theorem cfn_init_snd (w : World) (m : JVal) :
    (cfn_init w m).2 = (is_valid_metadata m).2 := by
  rcases hvm : is_valid_metadata m with ⟨vb, v2⟩
  cases vb
  · simp [cfn_init, hvm]
  · rcases hcg : dictGet v2 "config" with _ | cfg
    · cases v2 <;> simp [cfn_init, hvm, hcg]
    · cases cfg <;> simp [cfn_init, hvm, hcg]

/-- **C7 (amended)**: `_is_valid_metadata` destructively replaces the
stored document with the value under the init key, so after a successful
`cfn_init` the stored document is exactly that value; any further
`cfn_init` or `cfn_hup` on the object raises the invalid-metadata error
whenever that value does not itself pass the init-key validation (as a
spec-shaped config document does not) — but not otherwise, see the
counterexample. -/
theorem C7_destructive_validation (w w2 : World) (hooks : List Hook)
    (resource : String) (m : JVal)
    (hok : (cfn_init w m).1.isOk = true)
    (hnv : (is_valid_metadata ((cfn_init w m).2)).1 = false) :
    dictGet m init_key = some ((cfn_init w m).2) ∧
    (cfn_init w2 ((cfn_init w m).2)).1 = Except.error PyErr.invalidMetadata ∧
    (cfn_hup w2 hooks resource ((cfn_init w m).2)).1 =
      Except.error PyErr.invalidMetadata := by
  have hs := cfn_init_snd w m
  rcases hvm : is_valid_metadata m with ⟨vb, v2⟩
  have hv2 : (cfn_init w m).2 = v2 := by rw [hs, hvm]
  have hvb : vb = true := by
    by_contra hne
    have hfalse : vb = false := by cases vb <;> simp_all
    simp [cfn_init, hvm, hfalse, Except.isOk, Except.toBool] at hok
  subst hvb
  rw [hv2] at hnv ⊢
  rcases hvm2 : is_valid_metadata v2 with ⟨b2, u2⟩
  have hb2 : b2 = false := by rw [hvm2] at hnv; exact hnv
  subst hb2
  refine ⟨?_, ?_, ?_⟩
  · rcases hk : dictGet m init_key with _ | v
    · have hfm : is_valid_metadata m = (false, m) := by
        simp [is_valid_metadata, hk]
      rw [hfm] at hvm
      exact absurd (congrArg Prod.fst hvm) (by simp)
    · by_cases ht : (truthy m && truthy v) = true
      · have htm : is_valid_metadata m = (true, v) := by
          simp [is_valid_metadata, hk, ht]
        rw [htm] at hvm
        exact congrArg some (congrArg Prod.snd hvm)
      · have hfm : is_valid_metadata m = (false, m) := by
          simp [is_valid_metadata, hk, ht]
        rw [hfm] at hvm
        exact absurd (congrArg Prod.fst hvm) (by simp)
  · simp [cfn_init, hvm2]
  · simp [cfn_hup, hvm2]

/-- The standard-shaped document for the C7 witness / C7 claim premise:
one init key over one config section. -/
def docN : JVal := JVal.jdict [(init_key, JVal.jdict [("config", JVal.jdict [])])]

theorem C7_destructive_validation_witness :
    dictGet docN init_key = some ((cfn_init wTriv docN).2) ∧
    (cfn_init wTriv ((cfn_init wTriv docN).2)).1 =
      Except.error PyErr.invalidMetadata ∧
    (cfn_hup wTriv [] "WebServer" ((cfn_init wTriv docN).2)).1 =
      Except.error PyErr.invalidMetadata :=
  C7_destructive_validation wTriv wTriv [] "WebServer" docN rfl rfl

/-- The nested document refuting the universal form of C7: the init
value again holds a truthy init key (and a config), so the second call
finds a "valid" document. -/
def doc7 : JVal :=
  JVal.jdict [(init_key,
    JVal.jdict [(init_key, JVal.jdict [("config", JVal.jdict [])]),
                ("config", JVal.jdict [])])]

/-- **C7 counterexample**: on `doc7` the first `cfn_init` succeeds, the
stored document becomes the init value — and a SECOND `cfn_init` on the
object succeeds as well (that value still passes validation), so "any
further call raises the invalid-metadata error" does not hold for every
valid document. -/
theorem C7_second_call_can_succeed :
    (cfn_init wTriv doc7).1.isOk = true ∧
    (cfn_init wTriv ((cfn_init wTriv doc7).2)).1.isOk = true :=
  ⟨rfl, rfl⟩
